import Mathlib

/-!
Verification development for the PyPII repository.

The Python sources are shallowly embedded: Python strings become `List Char`
(`PyStr`), Python dicts become insertion-ordered association lists with the
overwrite-in-place update of CPython dicts, exceptions become `Except`/`Option`
results, and the external `re` module's `finditer` is an abstract parameter
about which only documented properties are assumed where needed.

Embedded modules:
  * `src/pypii/detector/patterns.py`   (`RiskLevel`, `PIIPattern`, `load_patterns`)
  * `src/pypii/detector/pii_detector.py` (`DetectionResult`, `PIIDetector.__init__`,
    `detect`, `detect_file`)
  * `src/utils/file_handler.py`        (`FileType`, `get_file_type`, `extract_text`,
    `_extract_from_pdf`, `_extract_from_docx`)
  * `src/pypii/report/generator.py`    (`ReportGenerator`, `add_results`,
    `generate_summary`, `_group_by_file`)
-/

namespace PyPII

/-- Python strings are modelled as lists of characters (code points), so that
slicing and length are character-based as in CPython. -/
abbrev PyStr := List Char

/-- Python slice `l[a:b]` for `0 ≤ a, b`: elements with index in `[a, min b len)`;
empty when `a ≥ b`. -/
def pySlice (l : PyStr) (a b : Nat) : PyStr :=
  (l.take b).drop a

/-- Python `sep.join(parts)`. -/
def pyJoin (sep : PyStr) (parts : List PyStr) : PyStr :=
  List.intercalate sep parts

/-- Characters that `str.splitlines` treats as line boundaries. -/
def isLineBoundary (c : Char) : Bool :=
  c = '\n' || c = '\r' || c = '\x0b' || c = '\x0c' ||
  c = '\x1c' || c = '\x1d' || c = '\x1e' || c = '\x85' ||
  c = '\u2028' || c = '\u2029'

/-- Accumulator worker for `pySplitlines`; `acc` holds the current line reversed. -/
def splitlinesAux : List Char → List Char → List (List Char)
  | [], acc => if acc.isEmpty then [] else [acc.reverse]
  | '\r' :: '\n' :: rest, acc => acc.reverse :: splitlinesAux rest []
  | c :: rest, acc =>
    if isLineBoundary c then acc.reverse :: splitlinesAux rest []
    else splitlinesAux rest (c :: acc)

/-- Python `str.splitlines()`: split at line-boundary characters (with `"\r\n"`
counting as a single boundary), keeping empty segments but producing no final
empty segment for text ending in a boundary. -/
def pySplitlines (s : PyStr) : List PyStr :=
  splitlinesAux s []

/-- Membership test of a key in a Python dict modelled as an association list. -/
def pyDictHasKey (d : List (String × α)) (k : String) : Bool :=
  d.any (fun kv => kv.1 == k)

/-- Replacement of the binding of key `k` by value `v`, other bindings kept. -/
def overwriteKey (k : String) (v : α) (kv : String × α) : String × α :=
  if kv.1 == k then (k, v) else kv

/-- CPython dict assignment `d[k] = v`: overwriting an existing key keeps its
original position, a new key is appended at the end. -/
def pyDictInsert (d : List (String × α)) (k : String) (v : α) : List (String × α) :=
  if pyDictHasKey d k then
    d.map (overwriteKey k v)
  else
    d ++ [(k, v)]

/-- Python dict lookup `d.get(k)`: first (hence only) binding of the key. -/
def pyDictGet (d : List (String × α)) (k : String) : Option α :=
  (d.find? (fun kv => kv.1 == k)).map (·.2)

/-- Enumeration `RiskLevel` of `patterns.py`. -/
inductive RiskLevel where
  | HIGH
  | MEDIUM
  | LOW
deriving DecidableEq, Repr

/-- String value of a `RiskLevel` member (`pattern.risk_level.value`). -/
def RiskLevel.value : RiskLevel → String
  | .HIGH => "HIGH"
  | .MEDIUM => "MEDIUM"
  | .LOW => "LOW"

/-- Dataclass `PIIPattern` of `patterns.py`. -/
structure PIIPattern where
  name : String
  pattern : String
  risk_level : RiskLevel
  description : String
deriving DecidableEq, Repr

/-- One match produced by `re.finditer`: `start`/`stop` are `match.span()` and
`group` is `match.group()`. -/
structure ReMatch where
  start : Nat
  stop : Nat
  group : PyStr
deriving DecidableEq, Repr

/-- Dataclass `DetectionResult` of `pii_detector.py`; `file_path` is the
optional source path (`None` by default), modelled as an `Option` over the
path string. -/
structure DetectionResult where
  pattern_name : String
  matched_text : PyStr
  start_pos : Nat
  end_pos : Nat
  risk_level : String
  line_number : Nat
  context : PyStr
  file_path : Option String := none
deriving DecidableEq, Repr

/-- The `compiled_patterns` dict comprehension of `PIIDetector.__init__`, for a
pattern list whose expressions all compile: `re.compile` is modelled as the
identity on the pattern string, since a compiled CPython pattern is determined
by its source expression. -/
def compiled_patterns (patterns : List PIIPattern) : List (String × String) :=
  patterns.foldl (fun d p => pyDictInsert d p.name p.pattern) []

/-- Method `PIIDetector.detect`: split the text into lines, and for each line
(1-based via `enumerate(lines, 1)`), each pattern in declaration order, and
each `finditer` match, emit a `DetectionResult` with the context window
`line[max(0, start - context_chars) : min(len(line), end + context_chars)]`.
The external `re.finditer` is the abstract parameter `finditer`, applied to the
compiled (= source) expression string and the line. -/
def detect (finditer : String → PyStr → List ReMatch) (patterns : List PIIPattern)
    (text : PyStr) (context_chars : Nat) : List DetectionResult :=
  let compiled := compiled_patterns patterns
  (List.enumFrom 1 (pySplitlines text)).flatMap fun li =>
    patterns.flatMap fun pat =>
      (finditer ((pyDictGet compiled pat.name).getD "") li.2).map fun m =>
        { pattern_name := pat.name
          matched_text := m.group
          start_pos := m.start
          end_pos := m.stop
          risk_level := pat.risk_level.value
          line_number := li.1
          context := pySlice li.2 (m.start - context_chars)
            (min li.2.length (m.stop + context_chars))
          file_path := none }

/-- One record inside a risk-level group of the pattern-source JSON. `name` and
`pattern` may be absent (the subscript access then raises `KeyError`);
`description` is read with `p.get('description', '')`. -/
structure RawRecord where
  name : Option String
  pattern : Option String
  description : Option String
deriving DecidableEq, Repr

/-- A pattern-source document after JSON parsing: the ordered groups of
`data['patterns']`, keyed by risk-level name. -/
abbrev PatternDoc := List (String × List RawRecord)

/-- Member access `RiskLevel[key]`; `KeyError` (here `none`) when `key` is not
a member name. -/
def riskLevelOfKey (k : String) : Option RiskLevel :=
  if k = "HIGH" then some .HIGH
  else if k = "MEDIUM" then some .MEDIUM
  else if k = "LOW" then some .LOW
  else none

/-- Exceptions that can escape pattern loading and compilation. -/
inductive LoadError where
  | keyError (k : String)
  | regexError (pattern : String)
deriving DecidableEq, Repr

/-- Construction of one `PIIPattern` inside the loop of
`PatternLoader.load_patterns` (arguments evaluated left to right, as in the
source call `PIIPattern(name=p['name'], pattern=p['pattern'],
risk_level=RiskLevel[risk_level], description=p.get('description', ''))`). -/
def loadRecord (riskKey : String) (r : RawRecord) : Except LoadError PIIPattern :=
  match r.name with
  | none => .error (.keyError "name")
  | some n =>
    match r.pattern with
    | none => .error (.keyError "pattern")
    | some p =>
      match riskLevelOfKey riskKey with
      | none => .error (.keyError riskKey)
      | some rl => .ok { name := n, pattern := p, risk_level := rl,
                         description := r.description.getD "" }

/-- Inner loop of `load_patterns` over one risk-level group's record list. -/
def loadGroup (riskKey : String) : List RawRecord → Except LoadError (List PIIPattern)
  | [] => .ok []
  | r :: rs => do
    let p ← loadRecord riskKey r
    let ps ← loadGroup riskKey rs
    return p :: ps

/-- `PatternLoader.load_patterns` (identical in
`src/pypii/detector/patterns.py` and `src/scan/pattern.py`): iterate the
groups of `data['patterns']` in document order, appending each group's
patterns in list order. -/
def load_patterns : PatternDoc → Except LoadError (List PIIPattern)
  | [] => .ok []
  | (k, g) :: rest => do
    let ps ← loadGroup k g
    let more ← load_patterns rest
    return ps ++ more

/-- The `compiled_patterns` dict comprehension of `PIIDetector.__init__` under
a fallible `re.compile` (the abstract `compile` argument), iterating the
pattern list in order and raising `re.error` at the first expression that does
not compile. -/
def compileAllAux (compile : String → Option String) (acc : List (String × String)) :
    List PIIPattern → Except LoadError (List (String × String))
  | [] => .ok acc
  | p :: rest =>
    match compile p.pattern with
    | none => .error (.regexError p.pattern)
    | some c => compileAllAux compile (pyDictInsert acc p.name c) rest

/-- The full dict comprehension, starting from the empty dict. -/
def compileAll (compile : String → Option String) (ps : List PIIPattern) :
    Except LoadError (List (String × String)) :=
  compileAllAux compile [] ps

/-- State of a successfully constructed `PIIDetector`. -/
structure PIIDetector where
  patterns : List PIIPattern
  compiled : List (String × String)
deriving DecidableEq, Repr

/-- `PIIDetector.__init__`: load the pattern document, then compile every
expression into the name-keyed dict. Any exception escapes the constructor, so
no detector — hence no pattern set — is observable on failure. -/
def piiDetectorInit (compile : String → Option String) (doc : PatternDoc) :
    Except LoadError PIIDetector := do
  let patterns ← load_patterns doc
  let compiled ← compileAll compile patterns
  return { patterns := patterns, compiled := compiled }

/-- Enumeration `FileType` of `file_handler.py`. -/
inductive FileType where
  | TEXT
  | PDF
  | DOCX
  | UNKNOWN
deriving DecidableEq, Repr

/-- Leading-segment comparison: does `hay` start with `needle`? -/
def leadMatch : List Char → List Char → Bool
  | [], _ => true
  | _ :: _, [] => false
  | c :: cs, h :: hs => c = h && leadMatch cs hs

/-- Substring occurrence at any position. -/
def containsSub : List Char → List Char → Bool
  | needle, [] => leadMatch needle []
  | needle, h :: hs => leadMatch needle (h :: hs) || containsSub needle hs

/-- Python substring test `needle in hay`. -/
def pyIn (needle hay : String) : Bool :=
  containsSub needle.toList hay.toList

/-- Python `str.lower()`, as a character-wise map over the string's data. -/
def pyLower (s : String) : String :=
  ⟨s.data.map Char.toLower⟩

/-- `FileHandler.get_file_type`, over the sniffed MIME type (already a string)
and the file's extension `path.suffix`. -/
def get_file_type (mime suffix : String) : FileType :=
  let m := pyLower mime
  if pyIn "text/plain" m then .TEXT
  else if pyIn "pdf" m then .PDF
  else if pyIn "officedocument.wordprocessingml.document" m
       || pyLower suffix = ".docx" then .DOCX
  else .UNKNOWN

/-- In-memory model of a file as seen through the external extraction
libraries: `utf8` is the UTF-8 decode of its bytes (`none` = decode error),
`pdf` carries the per-page `page.extract_text()` results (`none` = the PDF
library failed on this file), `docx` the paragraph texts and the table rows of
cell texts (`none` = the DOCX library failed). -/
structure FileData where
  utf8 : Option PyStr := none
  pdf : Option (List (Option PyStr)) := none
  docx : Option (List PyStr × List (List PyStr)) := none

/-- Per-page text `page.extract_text() or ""`. -/
def pdfPageText (p : Option PyStr) : PyStr := p.getD []

/-- `FileHandler._extract_from_pdf`: `"\n".join(page.extract_text() or "" for
page in pdf.pages)`. -/
def extract_from_pdf (pages : List (Option PyStr)) : PyStr :=
  pyJoin ['\n'] (pages.map pdfPageText)

/-- The PDF branch of `PIIDetector.detect_file`: `text += page.extract_text()
or ""` over the pages, starting from `""`. -/
def detectFilePdfText (pages : List (Option PyStr)) : PyStr :=
  pages.foldl (fun t p => t ++ pdfPageText p) []

/-- DOCX extraction (identical in `FileHandler._extract_from_docx` and the
DOCX branch of `detect_file`): paragraph texts followed by table rows with
cells space-joined, everything newline-joined. -/
def extract_from_docx (d : List PyStr × List (List PyStr)) : PyStr :=
  pyJoin ['\n'] (d.1 ++ d.2.map (fun row => pyJoin [' '] row))

/-- `FileHandler.extract_text`: dispatch on `get_file_type`; every failure —
decode error, parser failure, or the `ValueError` raised on an unsupported
type — is caught by the enclosing `except` and becomes `None`. -/
def extract_text (mime suffix : String) (f : FileData) : Option PyStr :=
  match get_file_type mime suffix with
  | .TEXT => f.utf8
  | .PDF => (f.pdf).map extract_from_pdf
  | .DOCX => (f.docx).map extract_from_docx
  | .UNKNOWN => none

/-- The extraction part of `PIIDetector.detect_file`: dispatch on the sniffed
MIME type, with the final `else` branch reading the file as UTF-8 text; an
exception from the chosen extractor is the `Except.error` case. -/
def detectFileExtract (mime suffix : String) (f : FileData) : Except Unit PyStr :=
  if pyIn "pdf" (pyLower mime) then
    match f.pdf with
    | some pages => .ok (detectFilePdfText pages)
    | none => .error ()
  else if pyIn "officedocument.wordprocessingml.document" (pyLower mime)
       || pyLower suffix = ".docx" then
    match f.docx with
    | some d => .ok (extract_from_docx d)
    | none => .error ()
  else
    match f.utf8 with
    | some t => .ok t
    | none => .error ()

/-- `PIIDetector.detect_file`: extract, run `detect` with its default context
window of 50, and stamp each result with the file path; any exception raised
inside the `try` block is logged and turned into the empty result list. -/
def detect_file (finditer : String → PyStr → List ReMatch) (patterns : List PIIPattern)
    (mime suffix : String) (f : FileData) (path : String) : List DetectionResult :=
  match detectFileExtract mime suffix f with
  | .error _ => []
  | .ok text => (detect finditer patterns text 50).map fun r => { r with file_path := some path }

/-- Dataclass `ScanSummary` of `generator.py`; the count dicts keep CPython's
insertion order. -/
structure ScanSummary where
  total_files : Nat
  total_detections : Nat
  risk_level_counts : List (String × Nat)
  pattern_counts : List (String × Nat)
  scan_time : String
deriving DecidableEq, Repr

/-- State of a `ReportGenerator`. -/
structure ReportGenerator where
  results : List DetectionResult
  scanned_files : List String
deriving DecidableEq, Repr

/-- `ReportGenerator.__init__`: both collections start empty. -/
def ReportGenerator.init : ReportGenerator := ⟨[], []⟩

/-- `ReportGenerator.add_results`: extend the result list; `if file_path:`
appends to `scanned_files` exactly when the optional path is present (a
`pathlib.Path` object is always truthy). -/
def add_results (g : ReportGenerator) (results : List DetectionResult)
    (file_path : Option String) : ReportGenerator :=
  { results := g.results ++ results
    scanned_files :=
      match file_path with
      | some p => g.scanned_files ++ [p]
      | none => g.scanned_files }

/-- Counter update `d[k] = d.get(k, 0) + 1`. -/
def bumpCount (d : List (String × Nat)) (k : String) : List (String × Nat) :=
  pyDictInsert d k ((pyDictGet d k).getD 0 + 1)

/-- `ReportGenerator.generate_summary`: one pass over the results maintaining
both counters; the wall-clock `datetime.now().isoformat()` is the explicit
argument `now`. -/
def generate_summary (g : ReportGenerator) (now : String) : ScanSummary :=
  let counts := g.results.foldl
    (fun rp r => (bumpCount rp.1 r.risk_level, bumpCount rp.2 r.pattern_name)) ([], [])
  { total_files := g.scanned_files.length
    total_detections := g.results.length
    risk_level_counts := counts.1
    pattern_counts := counts.2
    scan_time := now }

/-- Grouping key `result.file_path or Path('unknown')` of `_group_by_file`:
note that the sentinel is the ordinary relative path `unknown`. -/
def fileKey (r : DetectionResult) : String := r.file_path.getD "unknown"

/-- One iteration of the `_group_by_file` loop: a fresh key starts with the
empty list, then the result is appended. -/
def groupStep (grouped : List (String × List DetectionResult)) (r : DetectionResult) :
    List (String × List DetectionResult) :=
  pyDictInsert grouped (fileKey r) ((pyDictGet grouped (fileKey r)).getD [] ++ [r])

/-- `ReportGenerator._group_by_file`: fold the results into an
insertion-ordered dict of per-key lists. -/
def group_by_file (results : List DetectionResult) : List (String × List DetectionResult) :=
  results.foldl groupStep []

/-- One candidate file of a multi-file scan: sniffed MIME type, extension,
content, and path. -/
structure FileSpec where
  mime : String
  suffix : String
  data : FileData
  path : String

/-- The per-file loop of `cli.scan_files`: each file contributes
`detect_file`'s results, and `add_results(results, file)` runs only when that
list is nonempty (`if results:`). -/
def scan_files (finditer : String → PyStr → List ReMatch) (patterns : List PIIPattern)
    (files : List FileSpec) : ReportGenerator :=
  files.foldl
    (fun g f =>
      let results := detect_file finditer patterns f.mime f.suffix f.data f.path
      if results.isEmpty then g else add_results g results (some f.path))
    ReportGenerator.init

/-! ## Association-list (Python dict) lemmas -/

theorem pyDictGet_cons (a : String × α) (d : List (String × α)) (k : String) :
    pyDictGet (a :: d) k = if a.1 = k then some a.2 else pyDictGet d k := by
  by_cases h : a.1 = k <;> simp [pyDictGet, List.find?_cons, h]

theorem pyDictGet_of_not_hasKey (d : List (String × α)) (k : String)
    (h : pyDictHasKey d k = false) : pyDictGet d k = none := by
  induction d with
  | nil => rfl
  | cons a d ih =>
    simp only [pyDictHasKey, List.any_cons, Bool.or_eq_false_iff] at h
    rw [pyDictGet_cons]
    have ha : ¬ a.1 = k := by simpa using h.1
    simp only [ha, if_false]
    exact ih (by simpa [pyDictHasKey] using h.2)

theorem pyDictGet_append_single (d : List (String × α)) (k : String) (v : α)
    (h : pyDictHasKey d k = false) : pyDictGet (d ++ [(k, v)]) k = some v := by
  induction d with
  | nil => simp [pyDictGet, List.find?_cons]
  | cons a d ih =>
    simp only [pyDictHasKey, List.any_cons, Bool.or_eq_false_iff] at h
    have ha : ¬ a.1 = k := by simpa using h.1
    rw [List.cons_append, pyDictGet_cons]
    simp only [ha, if_false]
    exact ih (by simpa [pyDictHasKey] using h.2)

theorem pyDictGet_append_single_ne (d : List (String × α)) (k k' : String) (v : α)
    (h : k' ≠ k) : pyDictGet (d ++ [(k, v)]) k' = pyDictGet d k' := by
  have hne : ¬ k = k' := fun hh => h hh.symm
  induction d with
  | nil => simp [pyDictGet, List.find?_cons, hne]
  | cons a d ih =>
    rw [List.cons_append, pyDictGet_cons, pyDictGet_cons]
    by_cases ha : a.1 = k' <;> simp [ha, ih]

theorem overwriteKey_of_eq (k : String) (v : α) (kv : String × α) (h : kv.1 = k) :
    overwriteKey k v kv = (k, v) := by
  simp [overwriteKey, h]

theorem overwriteKey_of_ne (k : String) (v : α) (kv : String × α) (h : ¬ kv.1 = k) :
    overwriteKey k v kv = kv := by
  simp [overwriteKey, h]

theorem overwriteKey_fst (k : String) (v : α) (kv : String × α) :
    (overwriteKey k v kv).1 = kv.1 := by
  by_cases h : kv.1 = k
  · rw [overwriteKey_of_eq k v kv h, h]
  · rw [overwriteKey_of_ne k v kv h]

theorem pyDictGet_overwrite_self (d : List (String × α)) (k : String) (v : α) :
    pyDictGet (d.map (overwriteKey k v)) k
      = if pyDictHasKey d k then some v else none := by
  induction d with
  | nil => rfl
  | cons a d ih =>
    rw [List.map_cons, pyDictGet_cons, ih]
    by_cases ha : a.1 = k
    · rw [overwriteKey_of_eq k v a ha]
      simp [pyDictHasKey, ha]
    · rw [overwriteKey_of_ne k v a ha]
      have hb : (a.1 == k) = false := by simp [ha]
      rw [if_neg ha]
      simp only [pyDictHasKey, List.any_cons, hb, Bool.false_or]

theorem pyDictGet_overwrite_ne (d : List (String × α)) (k k' : String) (v : α)
    (h : k' ≠ k) :
    pyDictGet (d.map (overwriteKey k v)) k' = pyDictGet d k' := by
  induction d with
  | nil => rfl
  | cons a d ih =>
    rw [List.map_cons, pyDictGet_cons, pyDictGet_cons, ih]
    by_cases ha : a.1 = k
    · rw [overwriteKey_of_eq k v a ha]
      have h1 : ¬ k = k' := fun hh => h hh.symm
      have h2 : ¬ a.1 = k' := by rw [ha]; exact h1
      simp [h1, h2]
    · rw [overwriteKey_of_ne k v a ha]

theorem pyDictGet_insert_self (d : List (String × α)) (k : String) (v : α) :
    pyDictGet (pyDictInsert d k v) k = some v := by
  unfold pyDictInsert
  by_cases h : pyDictHasKey d k
  · simp [h, pyDictGet_overwrite_self]
  · simp only [h, if_false, Bool.false_eq_true]
    exact pyDictGet_append_single d k v (by simpa using h)

theorem pyDictGet_insert_ne (d : List (String × α)) (k k' : String) (v : α)
    (h : k' ≠ k) : pyDictGet (pyDictInsert d k v) k' = pyDictGet d k' := by
  unfold pyDictInsert
  by_cases hk : pyDictHasKey d k
  · simp [hk, pyDictGet_overwrite_ne _ _ _ _ h]
  · simp [hk, pyDictGet_append_single_ne _ _ _ _ h]

theorem pyDictInsert_keys (d : List (String × α)) (k : String) (v : α) :
    (pyDictInsert d k v).map Prod.fst
      = if pyDictHasKey d k then d.map Prod.fst else d.map Prod.fst ++ [k] := by
  unfold pyDictInsert
  by_cases h : pyDictHasKey d k
  · simp only [h, if_true, List.map_map]
    exact List.map_congr_left fun kv _ => overwriteKey_fst k v kv
  · simp [h]

theorem pyDictInsert_keys_nodup (d : List (String × α)) (k : String) (v : α)
    (h : ((d.map Prod.fst).Nodup)) : ((pyDictInsert d k v).map Prod.fst).Nodup := by
  rw [pyDictInsert_keys]
  by_cases hk : pyDictHasKey d k
  · simpa [hk] using h
  · have hnotin : k ∉ d.map Prod.fst := by
      intro hmem
      rcases List.mem_map.mp hmem with ⟨kv, hkv, hfst⟩
      have : pyDictHasKey d k = true := by
        simp only [pyDictHasKey, List.any_eq_true]
        exact ⟨kv, hkv, by simp [hfst]⟩
      simp [this] at hk
    simp only [hk, if_false, Bool.false_eq_true]
    rw [List.nodup_append]
    exact ⟨h, List.nodup_singleton k, by simpa using hnotin⟩

/-! ## Grouping by source (`_group_by_file`) -/

theorem groupFold_get (results : List DetectionResult)
    (g : List (String × List DetectionResult)) (k : String) :
    pyDictGet (results.foldl groupStep g) k =
      match pyDictGet g k with
      | some v => some (v ++ results.filter (fun r => fileKey r == k))
      | none =>
        if (results.filter (fun r => fileKey r == k)).isEmpty then none
        else some (results.filter (fun r => fileKey r == k)) := by
  induction results generalizing g with
  | nil => cases h : pyDictGet g k <;> simp [h]
  | cons r rs ih =>
    rw [List.foldl_cons, ih]
    by_cases hk : fileKey r = k
    · have hget : pyDictGet (groupStep g r) k
          = some ((pyDictGet g k).getD [] ++ [r]) := by
        unfold groupStep
        rw [hk]
        exact pyDictGet_insert_self _ _ _
      rw [hget]
      have hb : (fileKey r == k) = true := by simp [hk]
      cases h : pyDictGet g k with
      | some v => simp [h, List.filter_cons, hb]
      | none => simp [h, List.filter_cons, hb]
    · have hget : pyDictGet (groupStep g r) k = pyDictGet g k := by
        unfold groupStep
        exact pyDictGet_insert_ne _ _ _ _ (fun hh => hk hh.symm)
      rw [hget]
      have hb : (fileKey r == k) = false := by simp [hk]
      simp [List.filter_cons, hb]

theorem groupFold_keys_nodup (results : List DetectionResult)
    (g : List (String × List DetectionResult)) (h : (g.map Prod.fst).Nodup) :
    (((results.foldl groupStep g)).map Prod.fst).Nodup := by
  induction results generalizing g with
  | nil => exact h
  | cons r rs ih =>
    rw [List.foldl_cons]
    exact ih _ (pyDictInsert_keys_nodup _ _ _ h)

/-- C9 (amended): `_group_by_file` groups every finding under the key
`file_path or Path('unknown')`: looking up any key yields exactly the findings
whose `fileKey` is that key, in input order (absent when there are none), and
the group keys are pairwise distinct, so each finding lies in exactly one
group. The sentinel key is the ordinary path string `unknown`, which is not
distinct from a real source reference of that name (see the counterexample). -/
theorem C9_group_by_source_spec (results : List DetectionResult) (k : String) :
    (pyDictGet (group_by_file results) k =
      if (results.filter (fun r => fileKey r == k)).isEmpty then none
      else some (results.filter (fun r => fileKey r == k)))
    ∧ ((group_by_file results).map Prod.fst).Nodup := by
  constructor
  · have h := groupFold_get results [] k
    simpa [group_by_file] using h
  · exact groupFold_keys_nodup results [] (by simp)

/-- Finding attributed to a real file literally named `unknown`. -/
def findingRealUnknown : DetectionResult :=
  { pattern_name := "A", matched_text := ['9'], start_pos := 0, end_pos := 1,
    risk_level := "HIGH", line_number := 1, context := ['9'],
    file_path := some "unknown" }

/-- Finding carrying no source reference. -/
def findingNoSource : DetectionResult :=
  { pattern_name := "B", matched_text := ['8'], start_pos := 0, end_pos := 1,
    risk_level := "LOW", line_number := 1, context := ['8'], file_path := none }

/-- C9 counterexample: the claim says the sentinel "unknown" key is distinct
from any real source reference, but `_group_by_file` uses the ordinary path
`unknown` as the sentinel, so a finding from a real file named `unknown` and a
finding with no source reference land in one and the same group. -/
theorem C9_unknown_sentinel_cex :
    findingRealUnknown.file_path = some "unknown"
    ∧ findingNoSource.file_path = none
    ∧ group_by_file [findingRealUnknown, findingNoSource]
        = [("unknown", [findingRealUnknown, findingNoSource])] :=
  ⟨rfl, rfl, rfl⟩

/-! ## Report aggregation totals (`add_results` / `generate_summary`) -/

/-- A sequence of ingest calls `add_results(results, file_path)` applied to a
freshly constructed generator. -/
def runIngests (calls : List (List DetectionResult × Option String)) : ReportGenerator :=
  calls.foldl (fun g c => add_results g c.1 c.2) ReportGenerator.init

theorem scanned_files_foldl (calls : List (List DetectionResult × Option String))
    (g : ReportGenerator) :
    ((calls.foldl (fun g c => add_results g c.1 c.2) g).scanned_files).length
      = g.scanned_files.length + (calls.filter (fun c => c.2.isSome)).length := by
  induction calls generalizing g with
  | nil => simp
  | cons c cs ih =>
    rw [List.foldl_cons, ih]
    cases h : c.2 with
    | none => simp [add_results, h, List.filter_cons]
    | some p =>
      have hf : List.filter (fun c => c.2.isSome) (c :: cs)
          = c :: List.filter (fun c => c.2.isSome) cs := by
        simp [List.filter_cons, h]
      rw [hf]
      simp only [add_results, h, List.length_append, List.length_cons, List.length_nil]
      omega

/-- C1 (amended): after any sequence of `add_results` calls on a fresh
generator, `generate_summary().total_files` equals the number of calls whose
`file_path` was non-None — each call appends to the `scanned_files` list, so
repeated paths are counted once per call, not once per distinct path. -/
theorem C1_total_files_counts_ingests
    (calls : List (List DetectionResult × Option String)) (now : String) :
    (generate_summary (runIngests calls) now).total_files
      = (calls.filter (fun c => c.2.isSome)).length := by
  have h := scanned_files_foldl calls ReportGenerator.init
  simpa [generate_summary, runIngests, ReportGenerator.init] using h

/-- C1 counterexample: passing the same non-None `file_path` value "a" in two
`add_results` calls gives `total_files = 2`, while the number of distinct
`file_path` values passed is 1, refuting the claim that `total_files` equals
the number of distinct registered source references. -/
theorem C1_total_files_distinct_cex :
    (generate_summary (runIngests [([], some "a"), ([], some "a")]) "now").total_files = 2
    ∧ (([some "a", some "a"] : List (Option String)).filterMap id).dedup.length = 1 :=
  ⟨rfl, rfl⟩

/-! ## PDF extraction (`_extract_from_pdf` vs `detect_file`) -/

/-- Per-page texts concatenated with newline separators between consecutive
pages, written exactly as the spec phrases it. -/
def pdfNewlineJoin : List (Option PyStr) → PyStr
  | [] => []
  | [p] => pdfPageText p
  | p :: q :: rest => pdfPageText p ++ '\n' :: pdfNewlineJoin (q :: rest)

/-- C5 (amended): `FileHandler._extract_from_pdf` produces the per-page texts
joined with newline separators (a page with no extractable text contributing
the empty string), while the PDF branch of `PIIDetector.detect_file`
concatenates the page texts directly, with no separator at all. -/
theorem C5_pdf_extraction_shapes (pages : List (Option PyStr)) :
    extract_from_pdf pages = pdfNewlineJoin pages
    ∧ detectFilePdfText pages = (pages.map pdfPageText).flatten := by
  constructor
  · induction pages with
    | nil => rfl
    | cons p ps ih =>
      cases ps with
      | nil => simp [extract_from_pdf, pyJoin, List.intercalate, pdfNewlineJoin]
      | cons q rest =>
        simp only [extract_from_pdf, pyJoin, List.intercalate, List.map_cons,
          List.intersperse_cons_cons, List.flatten] at ih ⊢
        rw [pdfNewlineJoin]
        simp [← ih, List.append_assoc]
  · have haux : ∀ (l : List (Option PyStr)) (acc : PyStr),
        l.foldl (fun t p => t ++ pdfPageText p) acc = acc ++ (l.map pdfPageText).flatten := by
      intro l
      induction l with
      | nil => intro acc; simp
      | cons p ps ih => intro acc; simp [ih, List.append_assoc]
    simpa [detectFilePdfText] using haux pages []

/-- C5 counterexample: a two-page PDF whose pages extract to "a" and "b": the
`detect_file` path produces "ab", not the newline-joined "a\nb" the claim
requires of every PDF extraction. -/
theorem C5_pdf_no_separator_cex :
    detectFilePdfText [some ['a'], some ['b']] = ['a', 'b']
    ∧ pdfNewlineJoin [some ['a'], some ['b']] = ['a', '\n', 'b']
    ∧ detectFilePdfText [some ['a'], some ['b']]
        ≠ pdfNewlineJoin [some ['a'], some ['b']] := by
  refine ⟨rfl, rfl, ?_⟩
  decide

/-! ## Unsupported content types (`get_file_type` / `extract_text` / `detect_file`) -/

/-- C3 (amended): in `FileHandler.extract_text` a file whose detected content
type is unsupported yields the failure value `None` — no crash, no silent
extraction — though that value is the same `None` used for in-format
extraction failures rather than a distinct `UnsupportedFormatError`. -/
theorem C3_unsupported_extract_text_none (mime suffix : String) (f : FileData)
    (h : get_file_type mime suffix = FileType.UNKNOWN) :
    extract_text mime suffix f = none := by
  unfold extract_text
  rw [h]

theorem C3_unsupported_extract_text_none_witness :
    get_file_type "text/html" ".html" = FileType.UNKNOWN
    ∧ extract_text "text/html" ".html" { utf8 := some ['h', 'i'] } = none :=
  ⟨by decide, C3_unsupported_extract_text_none "text/html" ".html" { utf8 := some ['h', 'i'] }
    (by decide)⟩

/-- C3 counterexample: an HTML file (content type `text/html`, outside the
supported set, as `get_file_type` itself confirms) is silently extracted as
plain text by `PIIDetector.detect_file`'s fallback `else` branch instead of
yielding an unsupported-format failure. -/
theorem C3_unknown_type_text_fallback_cex :
    get_file_type "text/html" ".html" = FileType.UNKNOWN
    ∧ detectFileExtract "text/html" ".html" { utf8 := some ['h', 'i'] }
        = Except.ok ['h', 'i'] :=
  ⟨by decide, rfl⟩

/-! ## Pattern loading and compilation (C2, C6) -/

theorem compileAllAux_error_of_bad (compile : String → Option String)
    (ps : List PIIPattern) (p : PIIPattern) (hp : p ∈ ps)
    (hbad : compile p.pattern = none) (acc : List (String × String)) :
    ∃ q, compile q = none
      ∧ compileAllAux compile acc ps = Except.error (LoadError.regexError q) := by
  induction ps generalizing acc with
  | nil => cases hp
  | cons a ps ih =>
    cases hc : compile a.pattern with
    | none => exact ⟨a.pattern, hc, by simp [compileAllAux, hc]⟩
    | some c =>
      rcases List.mem_cons.mp hp with rfl | hmem
      · rw [hbad] at hc
        cases hc
      · rcases ih hmem (pyDictInsert acc a.name c) with ⟨q, hq, heq⟩
        exact ⟨q, hq, by simp [compileAllAux, hc, heq]⟩

/-- C2: for every pattern source whose records load but contain at least one
expression that does not compile, the detector construction (`load_patterns`
followed by the compiling dict comprehension of `PIIDetector.__init__`) fails
with the regular-expression syntax error; the `Except.error` result carries no
detector, so no partial pattern set is observable afterwards. -/
theorem C2_load_all_or_nothing (compile : String → Option String) (doc : PatternDoc)
    (ps : List PIIPattern) (p : PIIPattern)
    (hload : load_patterns doc = Except.ok ps) (hp : p ∈ ps)
    (hbad : compile p.pattern = none) :
    ∃ q, compile q = none
      ∧ piiDetectorInit compile doc = Except.error (LoadError.regexError q) := by
  rcases compileAllAux_error_of_bad compile ps p hp hbad [] with ⟨q, hq, heq⟩
  refine ⟨q, hq, ?_⟩
  simp [piiDetectorInit, hload, compileAll, heq, Bind.bind, Except.bind,
    Functor.map, Except.map]

/-- Pattern document holding one record whose expression `(` does not compile. -/
def badDocC2 : PatternDoc := [("HIGH", [⟨some "X", some "(", none⟩])]

/-- Compiler model that rejects exactly the expression `(`. -/
def badCompile : String → Option String := fun s => if s = "(" then none else some s

theorem C2_load_all_or_nothing_witness :
    load_patterns badDocC2 = Except.ok [⟨"X", "(", RiskLevel.HIGH, ""⟩]
    ∧ (⟨"X", "(", RiskLevel.HIGH, ""⟩ : PIIPattern)
        ∈ [(⟨"X", "(", RiskLevel.HIGH, ""⟩ : PIIPattern)]
    ∧ badCompile "(" = none
    ∧ ∃ q, badCompile q = none
        ∧ piiDetectorInit badCompile badDocC2 = Except.error (LoadError.regexError q) :=
  ⟨rfl, List.mem_singleton.mpr rfl, rfl,
    C2_load_all_or_nothing badCompile badDocC2 [⟨"X", "(", RiskLevel.HIGH, ""⟩]
      ⟨"X", "(", RiskLevel.HIGH, ""⟩ rfl (List.mem_singleton.mpr rfl) rfl⟩

theorem loadGroup_ok (k : String) (rl : RiskLevel) (hk : riskLevelOfKey k = some rl)
    (records : List RawRecord)
    (hf : ∀ r ∈ records, r.name ≠ none ∧ r.pattern ≠ none) :
    loadGroup k records = Except.ok (records.map fun r =>
      { name := (r.name).getD "", pattern := (r.pattern).getD "",
        risk_level := rl, description := (r.description).getD "" }) := by
  induction records with
  | nil => rfl
  | cons r rs ih =>
    have h1 := hf r (List.mem_cons_self r rs)
    cases hn : r.name with
    | none => exact absurd hn h1.1
    | some n =>
      cases hpp : r.pattern with
      | none => exact absurd hpp h1.2
      | some pexp =>
        have ihh := ih (fun x hx => hf x (List.mem_cons_of_mem _ hx))
        simp [loadGroup, loadRecord, hn, hpp, hk, ihh, Bind.bind, Except.bind,
          Pure.pure, Except.pure]

theorem load_patterns_ok (doc : PatternDoc)
    (hkeys : ∀ g ∈ doc, riskLevelOfKey g.1 ≠ none)
    (hfields : ∀ g ∈ doc, ∀ r ∈ g.2, r.name ≠ none ∧ r.pattern ≠ none) :
    load_patterns doc = Except.ok (doc.flatMap fun g => g.2.map fun r =>
      { name := (r.name).getD "", pattern := (r.pattern).getD "",
        risk_level := (riskLevelOfKey g.1).getD RiskLevel.HIGH,
        description := (r.description).getD "" }) := by
  induction doc with
  | nil => rfl
  | cons g gs ih =>
    obtain ⟨k, recs⟩ := g
    have hkg := hkeys (k, recs) (List.mem_cons_self _ _)
    cases hrl : riskLevelOfKey k with
    | none => exact absurd hrl hkg
    | some rl =>
      have hg := loadGroup_ok k rl hrl recs (hfields (k, recs) (List.mem_cons_self _ _))
      have ihh := ih (fun x hx => hkeys x (List.mem_cons_of_mem _ hx))
        (fun x hx => hfields x (List.mem_cons_of_mem _ hx))
      simp [load_patterns, hg, ihh, hrl, List.flatMap_cons, Bind.bind, Except.bind,
        Pure.pure, Except.pure]

/-- C6: for every pattern document whose group keys are all valid risk levels
and whose records all carry `name` and `pattern`, `load_patterns` succeeds and
returns exactly the records of all groups, iterating groups in source order
and records in list order, with a missing `description` defaulting to the
empty string; in particular the pattern count is the total record count. -/
theorem C6_load_returns_all_records (doc : PatternDoc)
    (hkeys : ∀ g ∈ doc, riskLevelOfKey g.1 ≠ none)
    (hfields : ∀ g ∈ doc, ∀ r ∈ g.2, r.name ≠ none ∧ r.pattern ≠ none) :
    load_patterns doc = Except.ok (doc.flatMap fun g => g.2.map fun r =>
      { name := (r.name).getD "", pattern := (r.pattern).getD "",
        risk_level := (riskLevelOfKey g.1).getD RiskLevel.HIGH,
        description := (r.description).getD "" })
    ∧ (doc.flatMap fun g => g.2.map fun r =>
        ({ name := (r.name).getD "", pattern := (r.pattern).getD "",
           risk_level := (riskLevelOfKey g.1).getD RiskLevel.HIGH,
           description := (r.description).getD "" } : PIIPattern)).length
      = (doc.map fun g => g.2.length).sum := by
  refine ⟨load_patterns_ok doc hkeys hfields, ?_⟩
  induction doc with
  | nil => rfl
  | cons g gs ih =>
    have ihh := ih (fun x hx => hkeys x (List.mem_cons_of_mem _ hx))
      (fun x hx => hfields x (List.mem_cons_of_mem _ hx))
    simp [List.flatMap_cons, ihh]

/-- Two-group pattern document exercising the C6 witness, with one record
missing its `description`. -/
def docC6 : PatternDoc :=
  [("HIGH", [⟨some "SSN", some "rx1", some "resident id"⟩]),
   ("LOW", [⟨some "Email", some "rx2", none⟩, ⟨some "IP", some "rx3", some ""⟩])]

theorem C6_load_returns_all_records_witness :
    (∀ g ∈ docC6, riskLevelOfKey g.1 ≠ none)
    ∧ (∀ g ∈ docC6, ∀ r ∈ g.2, r.name ≠ none ∧ r.pattern ≠ none)
    ∧ (load_patterns docC6 = Except.ok (docC6.flatMap fun g => g.2.map fun r =>
        { name := (r.name).getD "", pattern := (r.pattern).getD "",
          risk_level := (riskLevelOfKey g.1).getD RiskLevel.HIGH,
          description := (r.description).getD "" })
      ∧ (docC6.flatMap fun g => g.2.map fun r =>
          ({ name := (r.name).getD "", pattern := (r.pattern).getD "",
             risk_level := (riskLevelOfKey g.1).getD RiskLevel.HIGH,
             description := (r.description).getD "" } : PIIPattern)).length
        = (docC6.map fun g => g.2.length).sum) :=
  ⟨by decide, by decide, C6_load_returns_all_records docC6 (by decide) (by decide)⟩

/-! ## Per-file failure isolation (C7) -/

/-- C7: a decoding or parsing failure during extraction of one file makes
`detect_file` return the failure value of zero findings for that file (the
`except` handler returns `[]`; the embedded `detect_file` is a total function,
so no exception reaches the caller), and the multi-file loop of
`cli.scan_files` produces the same report with the failing file as without it
— the scan continues past any single unreadable file. -/
theorem C7_extraction_failure_isolated (finditer : String → PyStr → List ReMatch)
    (patterns : List PIIPattern) (pre post : List FileSpec) (bad : FileSpec)
    (hfail : detectFileExtract bad.mime bad.suffix bad.data = Except.error ()) :
    detect_file finditer patterns bad.mime bad.suffix bad.data bad.path = []
    ∧ scan_files finditer patterns (pre ++ bad :: post)
        = scan_files finditer patterns (pre ++ post) := by
  have hdf : detect_file finditer patterns bad.mime bad.suffix bad.data bad.path = [] := by
    simp [detect_file, hfail]
  refine ⟨hdf, ?_⟩
  unfold scan_files
  rw [List.foldl_append, List.foldl_append, List.foldl_cons]
  congr 1
  simp [hdf]

/-- Unreadable plain-text file (its bytes do not decode as UTF-8). -/
def badFileC7 : FileSpec :=
  { mime := "text/plain", suffix := ".txt", data := {}, path := "bad.txt" }

/-- Readable plain-text file. -/
def goodFileC7 : FileSpec :=
  { mime := "text/plain", suffix := ".txt", data := { utf8 := some ['a'] },
    path := "good.txt" }

theorem C7_extraction_failure_isolated_witness :
    detectFileExtract badFileC7.mime badFileC7.suffix badFileC7.data = Except.error ()
    ∧ (detect_file (fun _ _ => []) [] badFileC7.mime badFileC7.suffix badFileC7.data
         badFileC7.path = []
       ∧ scan_files (fun _ _ => []) [] ([goodFileC7] ++ badFileC7 :: [goodFileC7])
           = scan_files (fun _ _ => []) [] ([goodFileC7] ++ [goodFileC7])) :=
  ⟨rfl, C7_extraction_failure_isolated (fun _ _ => []) [] [goodFileC7] [goodFileC7]
    badFileC7 rfl⟩

/-! ## Structure of `detect` (C4, C8, C10) -/

/-- All findings of one line at line number `n`: exactly the two inner loops
of `detect`. -/
def detectLine (finditer : String → PyStr → List ReMatch) (patterns : List PIIPattern)
    (context_chars : Nat) (n : Nat) (line : PyStr) : List DetectionResult :=
  patterns.flatMap fun pat =>
    (finditer ((pyDictGet (compiled_patterns patterns) pat.name).getD "") line).map fun m =>
      { pattern_name := pat.name
        matched_text := m.group
        start_pos := m.start
        end_pos := m.stop
        risk_level := pat.risk_level.value
        line_number := n
        context := pySlice line (m.start - context_chars)
          (min line.length (m.stop + context_chars))
        file_path := none }

/-- Recursion over the lines carrying the 1-based line counter. -/
def detectAux (finditer : String → PyStr → List ReMatch) (patterns : List PIIPattern)
    (context_chars : Nat) : Nat → List PyStr → List DetectionResult
  | _, [] => []
  | n, l :: ls =>
    detectLine finditer patterns context_chars n l
      ++ detectAux finditer patterns context_chars (n + 1) ls

theorem enumFrom_flatMap_detectLine (finditer : String → PyStr → List ReMatch)
    (patterns : List PIIPattern) (cw : Nat) (ls : List PyStr) (n : Nat) :
    (List.enumFrom n ls).flatMap (fun li => detectLine finditer patterns cw li.1 li.2)
      = detectAux finditer patterns cw n ls := by
  induction ls generalizing n with
  | nil => rfl
  | cons l ls ih =>
    rw [List.enumFrom_cons, List.flatMap_cons, detectAux, ih (n + 1)]

theorem detect_eq_detectAux (finditer : String → PyStr → List ReMatch)
    (patterns : List PIIPattern) (text : PyStr) (cw : Nat) :
    detect finditer patterns text cw = detectAux finditer patterns cw 1 (pySplitlines text) :=
  enumFrom_flatMap_detectLine finditer patterns cw (pySplitlines text) 1

theorem mem_detectLine_elim {finditer : String → PyStr → List ReMatch}
    {patterns : List PIIPattern} {cw n : Nat} {line : PyStr} {r : DetectionResult}
    (hr : r ∈ detectLine finditer patterns cw n line) :
    ∃ pat, pat ∈ patterns
      ∧ ∃ m, m ∈ finditer ((pyDictGet (compiled_patterns patterns) pat.name).getD "") line
      ∧ r = { pattern_name := pat.name
              matched_text := m.group
              start_pos := m.start
              end_pos := m.stop
              risk_level := pat.risk_level.value
              line_number := n
              context := pySlice line (m.start - cw) (min line.length (m.stop + cw))
              file_path := none } := by
  rw [detectLine, List.mem_flatMap] at hr
  rcases hr with ⟨pat, hpat, hmem⟩
  rw [List.mem_map] at hmem
  rcases hmem with ⟨m, hm, hr⟩
  exact ⟨pat, hpat, m, hm, hr.symm⟩

theorem mem_detectAux_elim {finditer : String → PyStr → List ReMatch}
    {patterns : List PIIPattern} {cw : Nat} {r : DetectionResult} {n : Nat} {ls : List PyStr}
    (hr : r ∈ detectAux finditer patterns cw n ls) :
    ∃ j line, ls.get? j = some line
      ∧ r ∈ detectLine finditer patterns cw (n + j) line := by
  induction ls generalizing n with
  | nil => cases hr
  | cons l ls ih =>
    rw [detectAux, List.mem_append] at hr
    rcases hr with h | h
    · exact ⟨0, l, rfl, by simpa using h⟩
    · rcases ih h with ⟨j, line, hj, hmem⟩
      refine ⟨j + 1, line, by simpa using hj, ?_⟩
      have harith : n + (j + 1) = n + 1 + j := by omega
      rw [harith]
      exact hmem

/-- C8: every finding of `detect` carries as `context` exactly the window
`line[max(0, start - context_chars) : min(len(line), end + context_chars)]` of
its own line (the line its 1-based `line_number` indexes); truncated `Nat`
subtraction is the `max(0, ·)` of the claim. -/
theorem C8_context_window (finditer : String → PyStr → List ReMatch)
    (patterns : List PIIPattern) (text : PyStr) (cw : Nat) (r : DetectionResult)
    (hr : r ∈ detect finditer patterns text cw) :
    ∃ line, (pySplitlines text).get? (r.line_number - 1) = some line
      ∧ r.context = pySlice line (r.start_pos - cw) (min line.length (r.end_pos + cw)) := by
  rw [detect_eq_detectAux] at hr
  rcases mem_detectAux_elim hr with ⟨j, line, hj, hmem⟩
  rcases mem_detectLine_elim hmem with ⟨pat, hpat, m, hm, rfl⟩
  refine ⟨line, ?_, rfl⟩
  have harith : 1 + j - 1 = j := by omega
  simpa [harith] using hj

/-- Matcher used by the detection witnesses: one match exactly when the
compiled expression, read literally, is the whole line. -/
def eqMatcher : String → PyStr → List ReMatch :=
  fun rx line => if rx.toList = line then [⟨0, line.length, line⟩] else []

/-- The single finding `eqMatcher` produces on the second line of `"xx\nab"`
for pattern `ab` with a context window of 1. -/
def r0C8 : DetectionResult :=
  { pattern_name := "ab", matched_text := ['a', 'b'], start_pos := 0, end_pos := 2,
    risk_level := "HIGH", line_number := 2, context := ['a', 'b'], file_path := none }

theorem C8_context_window_witness :
    r0C8 ∈ detect eqMatcher [⟨"ab", "ab", RiskLevel.HIGH, ""⟩] "xx\nab".toList 1
    ∧ ∃ line, (pySplitlines "xx\nab".toList).get? (r0C8.line_number - 1) = some line
        ∧ r0C8.context
          = pySlice line (r0C8.start_pos - 1) (min line.length (r0C8.end_pos + 1)) :=
  ⟨by decide,
    C8_context_window eqMatcher [⟨"ab", "ab", RiskLevel.HIGH, ""⟩] "xx\nab".toList 1 r0C8
      (by decide)⟩

/-! ## Offset well-formedness (C10) -/

theorem pySlice_zero_length (line : PyStr) : pySlice line 0 line.length = line := by
  rw [pySlice, List.take_length, List.drop_zero]

theorem drop_take_decomp (l : PyStr) (a a' b b' : Nat) (ha : a' ≤ a) (hb : b ≤ b')
    (hab : a ≤ b) (hal : a ≤ l.length) :
    (l.take a).drop a' ++ (l.take b).drop a ++ (l.take b').drop b = (l.take b').drop a' := by
  have split1 : l.take b = l.take a ++ (l.take b).drop a := by
    have h := List.take_append_drop a (l.take b)
    rw [List.take_take, min_eq_left hab] at h
    exact h.symm
  have split2 : l.take b' = l.take b ++ (l.take b').drop b := by
    have h := List.take_append_drop b (l.take b')
    rw [List.take_take, min_eq_left hb] at h
    exact h.symm
  have hzero : a' - a = 0 := Nat.sub_eq_zero_of_le ha
  have hlen : (l.take a).length = a := by rw [List.length_take, min_eq_left hal]
  conv_rhs => rw [split2, split1, List.append_assoc, List.drop_append_eq_append_drop]
  rw [hlen, hzero, List.drop_zero, List.append_assoc]

theorem pySlice_mono_infix (l : PyStr) (a a' b b' : Nat) (ha : a' ≤ a) (hb : b ≤ b')
    (hab : a ≤ b) (hbl : b ≤ l.length) :
    pySlice l a b <:+: pySlice l a' b' :=
  ⟨(l.take a).drop a', (l.take b').drop b,
    drop_take_decomp l a a' b b' ha hb hab (le_trans hab hbl)⟩

/-- C10: every finding of `detect` has well-formed offsets for its own line —
`start_pos ≤ end_pos ≤ len(line)`, `matched_text` is exactly the slice
`line[start_pos:end_pos]`, and `matched_text` occurs contiguously inside
`context` — assuming only the documented behaviour of `re.finditer` (spans lie
within the searched string and `group()` is the spanned slice). -/
theorem C10_offsets_wellformed (finditer : String → PyStr → List ReMatch)
    (patterns : List PIIPattern) (text : PyStr) (cw : Nat) (r : DetectionResult)
    (hmatch : ∀ rx line, ∀ m ∈ finditer rx line,
      m.start ≤ m.stop ∧ m.stop ≤ line.length ∧ m.group = pySlice line m.start m.stop)
    (hr : r ∈ detect finditer patterns text cw) :
    ∃ line, (pySplitlines text).get? (r.line_number - 1) = some line
      ∧ r.start_pos ≤ r.end_pos ∧ r.end_pos ≤ line.length
      ∧ r.matched_text = pySlice line r.start_pos r.end_pos
      ∧ r.matched_text <:+: r.context := by
  rw [detect_eq_detectAux] at hr
  rcases mem_detectAux_elim hr with ⟨j, line, hj, hmem⟩
  rcases mem_detectLine_elim hmem with ⟨pat, hpat, m, hm, rfl⟩
  rcases hmatch _ line m hm with ⟨h1, h2, h3⟩
  have harith : 1 + j - 1 = j := by omega
  refine ⟨line, by simpa [harith] using hj, h1, h2, h3, ?_⟩
  show m.group <:+: pySlice line (m.start - cw) (min line.length (m.stop + cw))
  rw [h3]
  exact pySlice_mono_infix line m.start (m.start - cw) m.stop
    (min line.length (m.stop + cw)) (Nat.sub_le _ _)
    (le_min h2 (Nat.le_add_right _ _)) h1 h2

theorem eqMatcher_wf : ∀ rx line, ∀ m ∈ eqMatcher rx line,
    m.start ≤ m.stop ∧ m.stop ≤ line.length ∧ m.group = pySlice line m.start m.stop := by
  intro rx line m hm
  unfold eqMatcher at hm
  by_cases h : rx.toList = line
  · rw [if_pos h] at hm
    rcases List.mem_singleton.mp hm with rfl
    exact ⟨Nat.zero_le _, le_refl _, (pySlice_zero_length line).symm⟩
  · rw [if_neg h] at hm
    cases hm

/-- The finding used in the C10 witness (same scan as the C8 witness). -/
def r0C10 : DetectionResult :=
  { pattern_name := "ab", matched_text := ['a', 'b'], start_pos := 0, end_pos := 2,
    risk_level := "HIGH", line_number := 2, context := ['a', 'b'], file_path := none }

theorem C10_offsets_wellformed_witness :
    (∀ rx line, ∀ m ∈ eqMatcher rx line,
      m.start ≤ m.stop ∧ m.stop ≤ line.length ∧ m.group = pySlice line m.start m.stop)
    ∧ r0C10 ∈ detect eqMatcher [⟨"ab", "ab", RiskLevel.HIGH, ""⟩] "xx\nab".toList 1
    ∧ ∃ line, (pySplitlines "xx\nab".toList).get? (r0C10.line_number - 1) = some line
        ∧ r0C10.start_pos ≤ r0C10.end_pos ∧ r0C10.end_pos ≤ line.length
        ∧ r0C10.matched_text = pySlice line r0C10.start_pos r0C10.end_pos
        ∧ r0C10.matched_text <:+: r0C10.context :=
  ⟨eqMatcher_wf,
    by decide,
    C10_offsets_wellformed eqMatcher [⟨"ab", "ab", RiskLevel.HIGH, ""⟩] "xx\nab".toList 1
      r0C10 eqMatcher_wf (by decide)⟩

/-! ## Output ordering (C4) -/

/-- The claim's ordering key of a finding: (line number, index of its pattern
in declaration order, start offset). -/
def detectKey (patterns : List PIIPattern) (r : DetectionResult) : Nat × Nat × Nat :=
  (r.line_number, (patterns.map PIIPattern.name).indexOf r.pattern_name, r.start_pos)

/-- Lexicographic ≤ on the ordering key. -/
def keyLe (x y : Nat × Nat × Nat) : Prop :=
  x.1 < y.1 ∨ (x.1 = y.1 ∧ (x.2.1 < y.2.1 ∨ (x.2.1 = y.2.1 ∧ x.2.2 ≤ y.2.2)))

theorem mem_detectLine_line_number {finditer : String → PyStr → List ReMatch}
    {patterns : List PIIPattern} {cw n : Nat} {line : PyStr} {r : DetectionResult}
    (hr : r ∈ detectLine finditer patterns cw n line) : r.line_number = n := by
  rcases mem_detectLine_elim hr with ⟨pat, _, m, _, rfl⟩
  rfl

theorem mem_detectAux_line_number {finditer : String → PyStr → List ReMatch}
    {patterns : List PIIPattern} {cw n : Nat} {ls : List PyStr} {r : DetectionResult}
    (hr : r ∈ detectAux finditer patterns cw n ls) : n ≤ r.line_number := by
  rcases mem_detectAux_elim hr with ⟨j, line, _, hmem⟩
  rw [mem_detectLine_line_number hmem]
  omega

theorem pairwise_flatMap_of {α : Type _} {β : Type _} (l : List α) (f : α → List β)
    (R : β → β → Prop) (hin : ∀ a ∈ l, (f a).Pairwise R)
    (hcross : l.Pairwise (fun a b => ∀ x ∈ f a, ∀ y ∈ f b, R x y)) :
    (l.flatMap f).Pairwise R := by
  induction l with
  | nil => exact List.Pairwise.nil
  | cons a l ih =>
    rw [List.flatMap_cons, List.pairwise_append]
    rcases List.pairwise_cons.mp hcross with ⟨hhead, htail⟩
    refine ⟨hin a (List.mem_cons_self _ _),
      ih (fun x hx => hin x (List.mem_cons_of_mem _ hx)) htail, ?_⟩
    intro x hx y hy
    rcases List.mem_flatMap.mp hy with ⟨b, hb, hyb⟩
    exact hhead b hb x hx y hyb

theorem nodup_pairwise_indexOf_lt (names : List String) (h : names.Nodup) :
    names.Pairwise (fun a b => names.indexOf a < names.indexOf b) := by
  rw [List.pairwise_iff_getElem]
  intro i j hi hj hij
  rw [List.indexOf_getElem h i hi, List.indexOf_getElem h j hj]
  exact hij

theorem detectLine_map_key_pairwise (finditer : String → PyStr → List ReMatch)
    (patterns : List PIIPattern) (cw n : Nat) (line : PyStr)
    (hnames : (patterns.map PIIPattern.name).Nodup)
    (hmono : ∀ rx line, (finditer rx line).Pairwise (fun m1 m2 => m1.start ≤ m2.start)) :
    ((detectLine finditer patterns cw n line).map (detectKey patterns)).Pairwise keyLe := by
  rw [detectLine, List.map_flatMap]
  apply pairwise_flatMap_of
  · intro pat hpat
    rw [List.map_map]
    refine List.Pairwise.map _ ?_ (hmono _ line)
    intro m1 m2 hle
    exact Or.inr ⟨rfl, Or.inr ⟨rfl, hle⟩⟩
  · have h0 := nodup_pairwise_indexOf_lt (patterns.map PIIPattern.name) hnames
    rw [List.pairwise_map] at h0
    refine h0.imp ?_
    intro p q hlt x hx y hy
    rcases List.mem_map.mp hx with ⟨r1, hr1, rfl⟩
    rcases List.mem_map.mp hr1 with ⟨m1, _, rfl⟩
    rcases List.mem_map.mp hy with ⟨r2, hr2, rfl⟩
    rcases List.mem_map.mp hr2 with ⟨m2, _, rfl⟩
    exact Or.inr ⟨rfl, Or.inl hlt⟩

theorem detectAux_map_key_pairwise (finditer : String → PyStr → List ReMatch)
    (patterns : List PIIPattern) (cw : Nat)
    (hnames : (patterns.map PIIPattern.name).Nodup)
    (hmono : ∀ rx line, (finditer rx line).Pairwise (fun m1 m2 => m1.start ≤ m2.start))
    (n : Nat) (ls : List PyStr) :
    ((detectAux finditer patterns cw n ls).map (detectKey patterns)).Pairwise keyLe := by
  induction ls generalizing n with
  | nil => exact List.Pairwise.nil
  | cons l ls ih =>
    rw [detectAux, List.map_append, List.pairwise_append]
    refine ⟨detectLine_map_key_pairwise finditer patterns cw n l hnames hmono,
      ih (n + 1), ?_⟩
    intro x hx y hy
    rcases List.mem_map.mp hx with ⟨r1, hr1, rfl⟩
    rcases List.mem_map.mp hy with ⟨r2, hr2, rfl⟩
    left
    show r1.line_number < r2.line_number
    have e1 : r1.line_number = n := mem_detectLine_line_number hr1
    have e2 : n + 1 ≤ r2.line_number := mem_detectAux_line_number hr2
    omega

/-- C4: the sequence of findings returned by `detect` is sorted ascending by
the lexicographic key (line number, pattern declaration index, start offset);
line numbers are 1-based over the line split. Assumed: pattern names are
distinct within the set (the `PatternSet` identity invariant, required for the
name-keyed `compiled_patterns` dict) and `re.finditer` yields the matches of
one search in nondecreasing start order (its documented left-to-right scan). -/
theorem C4_detect_output_sorted (finditer : String → PyStr → List ReMatch)
    (patterns : List PIIPattern) (text : PyStr) (cw : Nat)
    (hnames : (patterns.map PIIPattern.name).Nodup)
    (hmono : ∀ rx line, (finditer rx line).Pairwise (fun m1 m2 => m1.start ≤ m2.start)) :
    ((detect finditer patterns text cw).map (detectKey patterns)).Pairwise keyLe := by
  rw [detect_eq_detectAux]
  exact detectAux_map_key_pairwise finditer patterns cw hnames hmono 1 (pySplitlines text)

theorem eqMatcher_mono : ∀ rx line,
    (eqMatcher rx line).Pairwise (fun m1 m2 => m1.start ≤ m2.start) := by
  intro rx line
  unfold eqMatcher
  by_cases h : rx.toList = line
  · rw [if_pos h]
    exact List.pairwise_singleton _ _
  · rw [if_neg h]
    exact List.Pairwise.nil

theorem C4_detect_output_sorted_witness :
    (([⟨"ab", "ab", RiskLevel.HIGH, ""⟩] : List PIIPattern).map PIIPattern.name).Nodup
    ∧ (∀ rx line, (eqMatcher rx line).Pairwise (fun m1 m2 => m1.start ≤ m2.start))
    ∧ ((detect eqMatcher [⟨"ab", "ab", RiskLevel.HIGH, ""⟩] "xx\nab".toList 1).map
        (detectKey [⟨"ab", "ab", RiskLevel.HIGH, ""⟩])).Pairwise keyLe :=
  ⟨by decide, eqMatcher_mono,
    C4_detect_output_sorted eqMatcher [⟨"ab", "ab", RiskLevel.HIGH, ""⟩] "xx\nab".toList 1
      (by decide) eqMatcher_mono⟩

end PyPII
